import Mathlib

/-!
Shallow embedding of the BuzzGauge BAC core (src/app/routes/home.tsx):
`calculateBac`, `calculateChartData` and `estimateTimeUntilTarget`,
with JavaScript numbers modelled as exact rationals.

The source repeats one three-line block (grams → Widmark peak) verbatim in
`calculateBac` and in `calculateChartData`; it is factored here into
`alcoholGramsOf` / `widmarkPeak` so the two embeddings share it, as the two
functions share the text.
-/

namespace BuzzGauge

/-- The `Gender` type, the keys of `GENDER_CONSTANTS` in the source. -/
inductive Gender where
  | male
  | female
deriving DecidableEq, Repr

/-- `GENDER_CONSTANTS`: male ↦ 0.68, female ↦ 0.55. -/
def GENDER_CONSTANTS : Gender → ℚ
  | .male => 0.68
  | .female => 0.55

/-- `METABOLISM_RATE = 0.015`, average rate of alcohol metabolism per hour. -/
def METABOLISM_RATE : ℚ := 0.015

/-- The `Drink` record type of the source (`timestamp`, `volume`, `alcoholPercentage`). -/
structure Drink where
  timestamp : ℚ
  volume : ℚ
  alcoholPercentage : ℚ
deriving DecidableEq, Repr

/-- `drink.volume * (drink.alcoholPercentage / 100) * 0.789`, the `alcoholGrams`
local of both `calculateBac` and `calculateChartData`. -/
def alcoholGramsOf (d : Drink) : ℚ :=
  d.volume * (d.alcoholPercentage / 100) * 0.789

/-- `(alcoholGrams / (weight * 1000 * genderConstant)) * 100`: the `initialBAC`
local of `calculateBac` and the `bacIncrease` local of `calculateChartData`. -/
def widmarkPeak (gender : Gender) (weight : ℚ) (d : Drink) : ℚ :=
  alcoholGramsOf d / (weight * 1000 * GENDER_CONSTANTS gender) * 100

/-- `(t2 - t1) / (60 * 60 * 1000)`: the source's conversion of a millisecond
interval into hours. -/
def hoursBetween (t1 t2 : ℚ) : ℚ :=
  (t2 - t1) / (60 * 60 * 1000)

/-- One iteration of the loop body of `calculateBac`: the contribution of a single
drink at query time `t` (0 when the drink is in the future of `t`, which the source
skips with `continue`; otherwise `Math.max(0, initialBAC - METABOLISM_RATE *
hoursSinceDrink)`). -/
def drinkContribution (gender : Gender) (weight t : ℚ) (d : Drink) : ℚ :=
  if d.timestamp > t then 0
  else max 0 (widmarkPeak gender weight d - METABOLISM_RATE * hoursBetween d.timestamp t)

/-- `calculateBac(drinks, gender, timestamp, weight)`: the source folds
`result += Math.max(0, initialBAC - METABOLISM_RATE * hoursSinceDrink)` over the
drinks, starting from 0 and skipping future drinks. -/
def calculateBac : List Drink → Gender → ℚ → ℚ → ℚ
  | [], _, _, _ => 0
  | d :: rest, g, t, w => drinkContribution g w t d + calculateBac rest g t w

/-- The `DataPoint` record of the source (`timestamp`, `bac`, `isPeak`). -/
structure DataPoint where
  timestamp : ℚ
  bac : ℚ
  isPeak : Bool
deriving DecidableEq, Repr

/-- The comparator of the source's `sort((a, b) => a.timestamp - b.timestamp)`,
as the corresponding total preorder on `Drink`. -/
def tsLe (a b : Drink) : Prop := a.timestamp ≤ b.timestamp

/-- The strict version of `tsLe`, used to reason about drink lists whose
timestamps are pairwise distinct. -/
def tsLt (a b : Drink) : Prop := a.timestamp < b.timestamp

instance : DecidableRel tsLe :=
  fun a b => inferInstanceAs (Decidable (a.timestamp ≤ b.timestamp))

instance : DecidableRel tsLt :=
  fun a b => inferInstanceAs (Decidable (a.timestamp < b.timestamp))

instance : IsTotal Drink tsLe := ⟨fun a b => le_total a.timestamp b.timestamp⟩

instance : IsTrans Drink tsLe := ⟨fun _ _ _ h1 h2 => le_trans h1 h2⟩

instance : IsAntisymm Drink tsLt :=
  ⟨fun _ _ h1 h2 => absurd (lt_trans h1 h2) (lt_irrefl _)⟩

/-- The `for (const drink of sortedDrinks)` loop of `calculateChartData`, as a
recursion over the remaining suffix of `sortedDrinks`.  The source's
`sortedDrinks.find((d) => d.timestamp > drink.timestamp)` scans the whole sorted
array, so the full array is carried as a separate parameter. -/
def chartLoop (sortedDrinks : List Drink) (gender : Gender) (now weight : ℚ) :
    List Drink → ℚ → List DataPoint
  | [], _ => []
  | drink :: restDrinks, currentBac =>
    let afterBac := currentBac + widmarkPeak gender weight drink
    let zeroTime := drink.timestamp + afterBac / METABOLISM_RATE * (60 * 60 * 1000)
    let beforeAfter : List DataPoint :=
      [⟨drink.timestamp, currentBac, false⟩, ⟨drink.timestamp, afterBac, false⟩]
    match sortedDrinks.find? (fun d => decide (drink.timestamp < d.timestamp)) with
    | some nextDrink =>
      let decayed :=
        max 0 (afterBac - METABOLISM_RATE * hoursBetween drink.timestamp nextDrink.timestamp)
      beforeAfter ++ chartLoop sortedDrinks gender now weight restDrinks decayed
    | none =>
      if drink.timestamp < now then
        let decayed := max 0 (afterBac - METABOLISM_RATE * hoursBetween drink.timestamp now)
        let tailSamples : List DataPoint :=
          if 0 < decayed then [⟨now, decayed, false⟩, ⟨zeroTime, 0, false⟩]
          else [⟨now, decayed, false⟩]
        beforeAfter ++ tailSamples ++ chartLoop sortedDrinks gender now weight restDrinks decayed
      else
        beforeAfter ++ [⟨zeroTime, 0, false⟩] ++
          chartLoop sortedDrinks gender now weight restDrinks afterBac

/-- `calculateChartData(drinks, gender, now, weight)`: sort a copy of the drinks by
timestamp (JavaScript `Array.prototype.sort` is stable, as is `insertionSort`),
then run the sample-emitting loop with `currentBac` starting at 0.  The source's
early return on an empty sorted array coincides with `chartLoop` on `[]`. -/
def calculateChartData (drinks : List Drink) (gender : Gender) (now weight : ℚ) :
    List DataPoint :=
  let sortedDrinks := List.insertionSort tsLe drinks
  chartLoop sortedDrinks gender now weight sortedDrinks 0

/-- `estimateTimeUntilTarget(currentBac, targetBac)`. -/
def estimateTimeUntilTarget (currentBac targetBac : ℚ) : ℚ :=
  if currentBac ≤ targetBac then 0
  else ((currentBac - targetBac) / METABOLISM_RATE) * (60 * 60 * 1000)

/-! ### Basic facts about the constants and the evaluator -/

theorem GENDER_CONSTANTS_pos (g : Gender) : 0 < GENDER_CONSTANTS g := by
  cases g <;> norm_num [GENDER_CONSTANTS]

theorem widmarkPeak_nonneg {g : Gender} {w : ℚ} {d : Drink} (hw : 0 < w)
    (hv : 0 ≤ d.volume) (ha : 0 ≤ d.alcoholPercentage) : 0 ≤ widmarkPeak g w d := by
  have hg := GENDER_CONSTANTS_pos g
  have hgrams : 0 ≤ alcoholGramsOf d :=
    mul_nonneg (mul_nonneg hv (div_nonneg ha (by norm_num))) (by norm_num)
  have hden : 0 ≤ w * 1000 * GENDER_CONSTANTS g :=
    mul_nonneg (mul_nonneg hw.le (by norm_num)) hg.le
  exact mul_nonneg (div_nonneg hgrams hden) (by norm_num)

theorem drinkContribution_nonneg (g : Gender) (w t : ℚ) (d : Drink) :
    0 ≤ drinkContribution g w t d := by
  unfold drinkContribution
  split
  · exact le_refl 0
  · exact le_max_left 0 _

theorem calculateBac_nonneg_aux (drinks : List Drink) (g : Gender) (t w : ℚ) :
    0 ≤ calculateBac drinks g t w := by
  induction drinks with
  | nil => exact le_refl 0
  | cons d rest ih => exact add_nonneg (drinkContribution_nonneg g w t d) ih

/-- Each drink's contribution only decreases as the query time moves forward past
both endpoints (no event between `t1` and `t2` touches this drink's branch). -/
theorem drinkContribution_antitone {g : Gender} {w : ℚ} {d : Drink} {t1 t2 : ℚ}
    (h12 : t1 ≤ t2) (hout : ¬(t1 < d.timestamp ∧ d.timestamp ≤ t2)) :
    drinkContribution g w t2 d ≤ drinkContribution g w t1 d := by
  unfold drinkContribution
  by_cases h2 : d.timestamp > t2
  · have h1 : d.timestamp > t1 := lt_of_le_of_lt h12 h2
    simp [h1, h2]
  · have hle2 : d.timestamp ≤ t2 := not_lt.mp h2
    have hle1 : d.timestamp ≤ t1 := by
      rcases not_and_or.mp hout with h | h
      · exact not_lt.mp h
      · exact absurd hle2 h
    have h1 : ¬ d.timestamp > t1 := not_lt.mpr hle1
    simp only [h1, h2, if_false]
    apply max_le_max (le_refl 0)
    apply sub_le_sub_left
    apply mul_le_mul_of_nonneg_left _ (by norm_num [METABOLISM_RATE])
    unfold hoursBetween
    exact div_le_div_of_nonneg_right (by linarith) (by norm_num)

/-- C4 — A single drink evaluated at its own timestamp yields exactly the Widmark
peak `(volumeMl * (abvPercent / 100) * 0.789) / (weightKg * 1000 *
distributionRatio(sex)) * 100`, with ratio 0.68 for male and 0.55 for female; for
Scenario A (500 ml, 5 %, male, 75 kg) the value is within 0.0001 of 0.0387. -/
theorem c4_single_event_peak (d : Drink) (g : Gender) (w : ℚ)
    (hw : 0 < w) (hv : 0 < d.volume) (ha : 0 < d.alcoholPercentage) :
    calculateBac [d] g d.timestamp w =
      d.volume * (d.alcoholPercentage / 100) * 0.789 /
        (w * 1000 * GENDER_CONSTANTS g) * 100 ∧
    GENDER_CONSTANTS .male = 0.68 ∧ GENDER_CONSTANTS .female = 0.55 ∧
    |calculateBac [⟨0, 500, 5⟩] .male 0 75 - 0.0387| < 0.0001 := by
  refine ⟨?_, by norm_num [GENDER_CONSTANTS], by norm_num [GENDER_CONSTANTS], ?_⟩
  · show drinkContribution g w d.timestamp d + 0 = _
    rw [add_zero]
    unfold drinkContribution
    rw [if_neg (lt_irrefl d.timestamp)]
    unfold hoursBetween
    rw [sub_self, zero_div, mul_zero, sub_zero]
    rw [max_eq_right (widmarkPeak_nonneg hw hv.le ha.le)]
    unfold widmarkPeak alcoholGramsOf
    ring
  · rw [abs_sub_lt_iff]
    norm_num [calculateBac, drinkContribution, widmarkPeak, alcoholGramsOf,
      hoursBetween, METABOLISM_RATE, GENDER_CONSTANTS]

/-- C4 witness: the theorem applied to Scenario A. -/
theorem c4_witness :
    calculateBac [⟨0, 500, 5⟩] .male 0 75 =
      (500 : ℚ) * (5 / 100) * 0.789 / (75 * 1000 * GENDER_CONSTANTS .male) * 100 := by
  have h := c4_single_event_peak ⟨0, 500, 5⟩ .male 75 (by norm_num) (by norm_num) (by norm_num)
  exact h.1

/-- C5 — `estimateTimeUntilTarget` returns 0 when `currentBac ≤ targetBac` and
`((currentBac - targetBac) / 0.015) * 3600000` otherwise; in particular
`estimateTimeUntilTarget 0.08 0.05 = 7200000`. -/
theorem c5_estimateTimeUntilTarget_spec :
    (∀ c t : ℚ, c ≤ t → estimateTimeUntilTarget c t = 0) ∧
    (∀ c t : ℚ, t < c →
      estimateTimeUntilTarget c t = (c - t) / 0.015 * 3600000) ∧
    estimateTimeUntilTarget 0.08 0.05 = 7200000 := by
  refine ⟨fun c t h => if_pos h, fun c t h => ?_, ?_⟩
  · rw [estimateTimeUntilTarget, if_neg (not_le.mpr h)]
    norm_num [METABOLISM_RATE]
  · norm_num [estimateTimeUntilTarget, METABOLISM_RATE]

/-- C5 witness: Scenario E and an at-target call, via the theorem. -/
theorem c5_witness :
    estimateTimeUntilTarget 0.08 0.05 = 7200000 ∧ estimateTimeUntilTarget 0.05 0.08 = 0 :=
  ⟨c5_estimateTimeUntilTarget_spec.2.2,
    c5_estimateTimeUntilTarget_spec.1 0.05 0.08 (by norm_num)⟩

/-- C6 — `calculateBac` is 0 on the empty list and whenever every drink is
strictly in the future of the query time. -/
theorem c6_calculateBac_zero_cases :
    (∀ (g : Gender) (t w : ℚ), calculateBac [] g t w = 0) ∧
    (∀ (drinks : List Drink) (g : Gender) (t w : ℚ),
      (∀ d ∈ drinks, t < d.timestamp) → calculateBac drinks g t w = 0) := by
  refine ⟨fun _ _ _ => rfl, fun drinks g t w hfut => ?_⟩
  induction drinks with
  | nil => rfl
  | cons d rest ih =>
    have hd : t < d.timestamp := hfut d (List.mem_cons_self d rest)
    show drinkContribution g w t d + calculateBac rest g t w = 0
    rw [drinkContribution, if_pos hd, zero_add]
    exact ih fun x hx => hfut x (List.mem_cons_of_mem d hx)

/-- C6 witness: empty list, and a future-dated drink, via the theorem. -/
theorem c6_witness :
    calculateBac [] .male 0 75 = 0 ∧
    calculateBac [⟨1000, 500, 5⟩] .female 0 75 = 0 :=
  ⟨c6_calculateBac_zero_cases.1 .male 0 75,
    c6_calculateBac_zero_cases.2 [⟨1000, 500, 5⟩] .female 0 75
      (by intro d hd; simp at hd; subst hd; norm_num)⟩

/-- C7 — `calculateBac` is non-increasing in the query time across any interval
`(t1, t2]` free of drink timestamps. -/
theorem c7_calculateBac_nonincreasing (drinks : List Drink) (g : Gender)
    (w t1 t2 : ℚ) (hw : 0 < w) (h12 : t1 ≤ t2)
    (hno : ∀ d ∈ drinks, ¬(t1 < d.timestamp ∧ d.timestamp ≤ t2)) :
    calculateBac drinks g t2 w ≤ calculateBac drinks g t1 w := by
  induction drinks with
  | nil => exact le_refl 0
  | cons d rest ih =>
    have h1 := drinkContribution_antitone (g := g) (w := w) h12
      (hno d (List.mem_cons_self d rest))
    have h2 := ih fun x hx => hno x (List.mem_cons_of_mem d hx)
    exact add_le_add h1 h2

/-- C7 witness: a single drink, queried one and two hours later. -/
theorem c7_witness :
    calculateBac [⟨0, 500, 5⟩] .male 7200000 75 ≤
      calculateBac [⟨0, 500, 5⟩] .male 3600000 75 :=
  c7_calculateBac_nonincreasing [⟨0, 500, 5⟩] .male 75 3600000 7200000
    (by norm_num) (by norm_num)
    (by intro d hd; simp at hd; subst hd; norm_num)

/-- C8 — with non-negative volumes and percentages and a positive weight,
`calculateBac` never returns a negative value (each contribution is floored at 0
before summation). -/
theorem c8_calculateBac_nonneg (drinks : List Drink) (g : Gender) (t w : ℚ)
    (hw : 0 < w) (hval : ∀ d ∈ drinks, 0 ≤ d.volume ∧ 0 ≤ d.alcoholPercentage) :
    0 ≤ calculateBac drinks g t w :=
  calculateBac_nonneg_aux drinks g t w

/-- C8 witness: a concrete two-drink log. -/
theorem c8_witness :
    0 ≤ calculateBac [⟨0, 500, 5⟩, ⟨3600000, 330, 4.5⟩] .female 7200000 60 :=
  c8_calculateBac_nonneg [⟨0, 500, 5⟩, ⟨3600000, 330, 4.5⟩] .female 7200000 60
    (by norm_num)
    (by intro d hd; simp at hd; rcases hd with h | h <;> subst h <;> norm_num)

/-! ### The synthesizer's `find?` on a sorted array -/

/-- In a `tsLe`-sorted array, every element at or before the last one carries a
timestamp at most the last one's. -/
theorem sorted_all_le_last {L : List Drink} {d : Drink}
    (hs : List.Sorted tsLe L) (hsuf : [d] <:+ L) :
    ∀ x ∈ L, x.timestamp ≤ d.timestamp := by
  obtain ⟨init, rfl⟩ := hsuf
  intro x hx
  rcases List.mem_append.mp hx with hx | hx
  · exact (List.pairwise_append.mp hs).2.2 x hx d (by simp)
  · rw [List.mem_singleton.mp hx]

/-- When the loop reaches the last element of the sorted array, the source's
`find` comes back empty: nothing is strictly later. -/
theorem find?_eq_none_at_last {L : List Drink} {d : Drink}
    (hs : List.Sorted tsLe L) (hsuf : [d] <:+ L) :
    L.find? (fun x => decide (d.timestamp < x.timestamp)) = none := by
  apply List.find?_eq_none.mpr
  intro x hx
  simp only [decide_eq_true_eq]
  exact not_lt.mpr (sorted_all_le_last hs hsuf x hx)

/-- When timestamps are pairwise distinct and a later element remains, the
source's `find` returns exactly the next element of the sorted array. -/
theorem find?_eq_next {L : List Drink} {d r : Drink} {rest : List Drink}
    (hp : List.Pairwise tsLt L) (hsuf : d :: r :: rest <:+ L) :
    L.find? (fun x => decide (d.timestamp < x.timestamp)) = some r := by
  obtain ⟨init, rfl⟩ := hsuf
  rw [List.find?_append]
  have hinit : init.find? (fun x => decide (d.timestamp < x.timestamp)) = none := by
    apply List.find?_eq_none.mpr
    intro x hx
    have hlt : tsLt x d := (List.pairwise_append.mp hp).2.2 x hx d (by simp)
    simp only [decide_eq_true_eq]
    exact not_lt.mpr hlt.le
  rw [hinit]
  have hdr : tsLt d r :=
    (List.pairwise_cons.mp (List.pairwise_append.mp hp).2.1).1 r (by simp)
  rw [List.find?_cons_of_neg _ (by simp), List.find?_cons_of_pos _ (by simpa using hdr)]
  rfl

/-! ### C10 — the `isPeak` flag is never set -/

/-- Every point the loop emits carries `isPeak = false`. -/
theorem chartLoop_isPeak_false (L : List Drink) (g : Gender) (now w : ℚ) :
    ∀ (suffix : List Drink) (cb : ℚ), ∀ p ∈ chartLoop L g now w suffix cb,
      p.isPeak = false := by
  intro suffix
  induction suffix with
  | nil => intro cb p hp; simp [chartLoop] at hp
  | cons d rest ih =>
    intro cb p hp
    simp only [chartLoop] at hp
    split at hp
    · rcases List.mem_append.mp hp with h | h
      · fin_cases h <;> rfl
      · exact ih _ p h
    · split at hp
      · rcases List.mem_append.mp hp with h | h
        · rcases List.mem_append.mp h with h2 | h2
          · fin_cases h2 <;> rfl
          · split at h2
            · fin_cases h2 <;> rfl
            · fin_cases h2 <;> rfl
        · exact ih _ p h
      · rcases List.mem_append.mp hp with h | h
        · rcases List.mem_append.mp h with h2 | h2
          · fin_cases h2 <;> rfl
          · fin_cases h2 <;> rfl
        · exact ih _ p h

/-- C10 — every sample `calculateChartData` returns has `isPeak = false`: the
sequence of flags is a constant-`false` list. -/
theorem c10_isPeak_never_true (drinks : List Drink) (g : Gender) (now w : ℚ) :
    (calculateChartData drinks g now w).map DataPoint.isPeak =
      List.replicate (calculateChartData drinks g now w).length false := by
  rw [← List.length_map (calculateChartData drinks g now w) DataPoint.isPeak]
  apply List.eq_replicate_of_mem
  intro b hb
  rcases List.mem_map.mp hb with ⟨p, hp, rfl⟩
  exact chartLoop_isPeak_false _ g now w _ 0 p hp

/-! ### C9 — the curve closes at level 0 -/

/-- Loop invariant for C9: starting from any running level, the loop on a
non-empty suffix of the sorted array emits at least one sample and its last
sample has level 0. -/
theorem chartLoop_last_zero (L : List Drink) (g : Gender) (now w : ℚ)
    (hs : List.Sorted tsLe L) :
    ∀ suffix : List Drink, suffix <:+ L → ∀ cb : ℚ, suffix ≠ [] →
      chartLoop L g now w suffix cb ≠ [] ∧
      ∀ q, (chartLoop L g now w suffix cb).getLast? = some q → q.bac = 0 := by
  intro suffix
  induction suffix with
  | nil => intro _ _ h; exact absurd rfl h
  | cons d rest ih =>
    intro hsuf cb _
    rcases rest with _ | ⟨r, rest'⟩
    · -- `d` is the last element of the sorted array: `find` returns nothing.
      have hfind := find?_eq_none_at_last hs hsuf
      simp only [chartLoop, List.append_nil]
      split
      · rename_i nextDrink heq
        rw [hfind] at heq
        exact absurd heq (by simp)
      · split
        · split
          · refine ⟨by simp, ?_⟩
            intro q hq
            simp only [List.cons_append, List.nil_append, List.getLast?_cons_cons,
              List.getLast?_singleton, Option.some.injEq] at hq
            rw [← hq]
          · rename_i hnd
            refine ⟨by simp, ?_⟩
            intro q hq
            simp only [List.cons_append, List.nil_append, List.getLast?_cons_cons,
              List.getLast?_singleton, Option.some.injEq] at hq
            rw [← hq]
            exact le_antisymm (not_lt.mp hnd) (le_max_left 0 _)
        · refine ⟨by simp, ?_⟩
          intro q hq
          simp only [List.cons_append, List.nil_append, List.getLast?_cons_cons,
            List.getLast?_singleton, Option.some.injEq] at hq
          rw [← hq]
    · -- later drinks remain in the suffix: the recursive call provides the tail.
      have hsuf' : r :: rest' <:+ L := (List.suffix_cons d (r :: rest')).trans hsuf
      have key : ∀ (M : List DataPoint) (b : ℚ),
          M ++ chartLoop L g now w (r :: rest') b ≠ [] ∧
          ∀ q, (M ++ chartLoop L g now w (r :: rest') b).getLast? = some q →
            q.bac = 0 := by
        intro M b
        have h := ih hsuf' b (by simp)
        refine ⟨fun hc => h.1 (List.append_eq_nil.mp hc).2, fun q hq => ?_⟩
        rw [List.getLast?_append_of_ne_nil _ h.1] at hq
        exact h.2 q hq
      simp only [chartLoop]
      split
      · exact key _ _
      · split
        · exact key _ _
        · exact key _ _

/-- C9 — for a non-empty drink list the chart is non-empty and its last sample
has level 0 (the curve closes at zero, at the projected zero-crossing or at
`now` once the level has fully decayed). -/
theorem c9_chart_ends_at_zero (drinks : List Drink) (g : Gender) (now w : ℚ)
    (hne : drinks ≠ []) :
    calculateChartData drinks g now w ≠ [] ∧
    ((calculateChartData drinks g now w).getLast?.map DataPoint.bac).getD 1 = 0 := by
  have hs := List.sorted_insertionSort tsLe drinks
  have hperm := List.perm_insertionSort tsLe drinks
  have hSne : List.insertionSort tsLe drinks ≠ [] := by
    intro hc
    rw [hc] at hperm
    exact hne hperm.symm.eq_nil
  have h := chartLoop_last_zero (List.insertionSort tsLe drinks) g now w hs
    (List.insertionSort tsLe drinks) (List.suffix_refl _) 0 hSne
  simp only [calculateChartData]
  refine ⟨h.1, ?_⟩
  rcases hL : (chartLoop (List.insertionSort tsLe drinks) g now w
      (List.insertionSort tsLe drinks) 0).getLast? with _ | q
  · exact absurd (List.getLast?_eq_none_iff.mp hL) h.1
  · simp only [hL, Option.map_some', Option.getD_some]
    exact h.2 q hL

/-- C9 witness: a single past drink, via the theorem. -/
theorem c9_witness :
    calculateChartData [⟨0, 500, 5⟩] .male 3600000 75 ≠ [] ∧
    ((calculateChartData [⟨0, 500, 5⟩] .male 3600000 75).getLast?.map
      DataPoint.bac).getD 1 = 0 :=
  c9_chart_ends_at_zero [⟨0, 500, 5⟩] .male 3600000 75 (by simp)

/-! ### C1 — chronological ordering of the samples -/

/-- The head of a two-element suffix of a strictly sorted array is strictly
earlier than its successor. -/
theorem suffix_head_lt {L : List Drink} {d r : Drink} {rest : List Drink}
    (hp : List.Pairwise tsLt L) (hsuf : d :: r :: rest <:+ L) :
    d.timestamp < r.timestamp := by
  obtain ⟨init, rfl⟩ := hsuf
  exact (List.pairwise_cons.mp (List.pairwise_append.mp hp).2.1).1 r (by simp)

/-- While the level is still positive at `now`, the projected zero-crossing lies
at or after `now`. -/
theorem now_le_zeroTime {a dts now : ℚ}
    (h1 : 0 < a - METABOLISM_RATE * hoursBetween dts now) :
    now ≤ dts + a / METABOLISM_RATE * (60 * 60 * 1000) := by
  norm_num [METABOLISM_RATE, hoursBetween] at h1 ⊢
  linarith

/-- The projected zero-crossing of a non-negative level lies at or after the
drink itself. -/
theorem ts_le_zeroTime {a : ℚ} (dts : ℚ) (ha : 0 ≤ a) :
    dts ≤ dts + a / METABOLISM_RATE * (60 * 60 * 1000) :=
  le_add_of_nonneg_right
    (mul_nonneg (div_nonneg ha (by norm_num [METABOLISM_RATE])) (by norm_num))

/-- Loop invariant for C1: on a strictly sorted array, starting from a
non-negative level, the loop emits samples with non-decreasing timestamps, all
of them at or after the suffix's first drink. -/
theorem chartLoop_times_chain (L : List Drink) (g : Gender) (now w : ℚ)
    (hw : 0 < w) (hval : ∀ x ∈ L, 0 ≤ x.volume ∧ 0 ≤ x.alcoholPercentage)
    (hp : List.Pairwise tsLt L) :
    ∀ suffix : List Drink, suffix <:+ L → ∀ cb : ℚ, 0 ≤ cb →
      List.Chain' (fun p q : DataPoint => p.timestamp ≤ q.timestamp)
        (chartLoop L g now w suffix cb) ∧
      ∀ p ∈ chartLoop L g now w suffix cb, ∀ dd ∈ suffix.head?,
        dd.timestamp ≤ p.timestamp := by
  intro suffix
  induction suffix with
  | nil =>
    intro _ cb _
    refine ⟨by simp [chartLoop], ?_⟩
    intro p hq
    simp [chartLoop] at hq
  | cons d rest ih =>
    intro hsuf cb hcb
    have hd_mem : d ∈ L := hsuf.subset (List.mem_cons_self d rest)
    have hpeak : 0 ≤ widmarkPeak g w d :=
      widmarkPeak_nonneg hw (hval d hd_mem).1 (hval d hd_mem).2
    have hafter : 0 ≤ cb + widmarkPeak g w d := add_nonneg hcb hpeak
    rcases rest with _ | ⟨r, rest'⟩
    · -- `d` is the last element: `find` is empty, the curve closes here.
      have hfind := find?_eq_none_at_last (hp.imp fun h => le_of_lt h) hsuf
      simp only [chartLoop, List.append_nil, List.cons_append, List.nil_append]
      split
      · rename_i nd heq
        rw [hfind] at heq
        exact absurd heq (by simp)
      · split
        · rename_i hnow
          split
          · rename_i hdec
            have h1 : 0 < cb + widmarkPeak g w d -
                METABOLISM_RATE * hoursBetween d.timestamp now :=
              (lt_max_iff.mp hdec).resolve_left (lt_irrefl 0)
            have h2 := now_le_zeroTime h1
            refine ⟨List.chain'_cons.mpr ⟨le_refl _, List.chain'_cons.mpr
              ⟨hnow.le, List.chain'_cons.mpr ⟨h2, List.chain'_singleton _⟩⟩⟩, ?_⟩
            intro p hq dd hdd
            obtain rfl : d = dd := by simpa [Option.mem_def] using hdd
            have h3 := (ts_le_zeroTime (a := cb + widmarkPeak g w d) d.timestamp hafter)
            fin_cases hq
            · exact le_refl _
            · exact le_refl _
            · exact hnow.le
            · exact le_trans hnow.le h2
          · refine ⟨List.chain'_cons.mpr ⟨le_refl _, List.chain'_cons.mpr
              ⟨hnow.le, List.chain'_singleton _⟩⟩, ?_⟩
            intro p hq dd hdd
            obtain rfl : d = dd := by simpa [Option.mem_def] using hdd
            fin_cases hq
            · exact le_refl _
            · exact le_refl _
            · exact hnow.le
        · rename_i hnow
          have h3 := ts_le_zeroTime (a := cb + widmarkPeak g w d) d.timestamp hafter
          refine ⟨List.chain'_cons.mpr ⟨le_refl _, List.chain'_cons.mpr
            ⟨h3, List.chain'_singleton _⟩⟩, ?_⟩
          intro p hq dd hdd
          obtain rfl : d = dd := by simpa [Option.mem_def] using hdd
          fin_cases hq
          · exact le_refl _
          · exact le_refl _
          · exact h3
    · -- a later drink remains: `find` returns it and the loop recurses.
      have hsuf' : r :: rest' <:+ L := (List.suffix_cons d (r :: rest')).trans hsuf
      have hfind := find?_eq_next hp hsuf
      have hdr : d.timestamp < r.timestamp := suffix_head_lt hp hsuf
      simp only [chartLoop, List.cons_append, List.nil_append]
      split
      · rename_i nd heq
        rw [hfind] at heq
        obtain rfl : nd = r := by injection heq with h; exact h.symm
        have hrec := ih hsuf'
          (max 0 (cb + widmarkPeak g w d -
            METABOLISM_RATE * hoursBetween d.timestamp nd.timestamp))
          (le_max_left 0 _)
        constructor
        · refine List.chain'_cons.mpr ⟨le_refl _, List.chain'_cons'.mpr ⟨?_, hrec.1⟩⟩
          intro q hq
          have hqm := List.mem_of_mem_head? hq
          exact le_trans hdr.le (hrec.2 q hqm nd (by simp [Option.mem_def]))
        · intro p hq dd hdd
          obtain rfl : d = dd := by simpa [Option.mem_def] using hdd
          rcases hq with _ | ⟨_, hq⟩
          · exact le_refl _
          rcases hq with _ | ⟨_, hq⟩
          · exact le_refl _
          exact le_trans hdr.le (hrec.2 p hq nd (by simp [Option.mem_def]))
      · rename_i heq
        rw [hfind] at heq
        exact absurd heq (by simp)

/-- C1 (amended) — when the drinks carry pairwise-distinct timestamps (and the
usual positivity constraints of the data model hold), the samples of
`calculateChartData` have non-decreasing `timestamp` values. -/
theorem c1_chart_times_nondecreasing_of_distinct (drinks : List Drink)
    (g : Gender) (now w : ℚ) (hw : 0 < w)
    (hval : ∀ x ∈ drinks, 0 ≤ x.volume ∧ 0 ≤ x.alcoholPercentage)
    (hnd : (drinks.map Drink.timestamp).Nodup) :
    List.Chain' (fun p q : DataPoint => p.timestamp ≤ q.timestamp)
      (calculateChartData drinks g now w) := by
  have hs := List.sorted_insertionSort tsLe drinks
  have hperm := List.perm_insertionSort tsLe drinks
  have hndL : ((List.insertionSort tsLe drinks).map Drink.timestamp).Nodup :=
    ((hperm.map Drink.timestamp).symm).nodup hnd
  have hne : List.Pairwise (fun a b : Drink => a.timestamp ≠ b.timestamp)
      (List.insertionSort tsLe drinks) := List.pairwise_map.mp hndL
  have hlt : List.Pairwise tsLt (List.insertionSort tsLe drinks) :=
    (List.Pairwise.and hs hne).imp fun h => lt_of_le_of_ne h.1 h.2
  have hvalL : ∀ x ∈ List.insertionSort tsLe drinks,
      0 ≤ x.volume ∧ 0 ≤ x.alcoholPercentage :=
    fun x hx => hval x (hperm.subset hx)
  simp only [calculateChartData]
  exact (chartLoop_times_chain _ g now w hw hvalL hlt _
    (List.suffix_refl _) 0 (le_refl 0)).1

/-- C1 counterexample — two drinks sharing a timestamp: the loop emits the first
drink's zero-crossing sample before returning to the duplicate's timestamp, so
the sample times are NOT non-decreasing. -/
theorem c1_counterexample :
    ¬ List.Chain' (fun p q : DataPoint => p.timestamp ≤ q.timestamp)
      (calculateChartData [⟨0, 500, 5⟩, ⟨0, 500, 5⟩] .male 0 75) := by
  norm_num [calculateChartData, chartLoop, List.find?, List.insertionSort,
    List.orderedInsert, tsLe, GENDER_CONSTANTS, METABOLISM_RATE, widmarkPeak,
    alcoholGramsOf, hoursBetween, List.chain'_cons]

/-- C1 witness: two distinct-timestamp drinks, via the theorem. -/
theorem c1_witness :
    List.Chain' (fun p q : DataPoint => p.timestamp ≤ q.timestamp)
      (calculateChartData [⟨0, 500, 5⟩, ⟨3600000, 330, 4.5⟩] .male 7200000 75) :=
  c1_chart_times_nondecreasing_of_distinct [⟨0, 500, 5⟩, ⟨3600000, 330, 4.5⟩]
    .male 7200000 75 (by norm_num)
    (by intro x hx; simp at hx; rcases hx with h | h <;> subst h <;> norm_num)
    (by norm_num)

/-! ### C2 — permutation invariance of the synthesizer -/

/-- With pairwise-distinct timestamps, sorting by timestamp sends any two
permutations of a drink list to the same array. -/
theorem insertionSort_eq_of_perm {l₁ l₂ : List Drink} (hperm : l₁.Perm l₂)
    (hnd : (l₁.map Drink.timestamp).Nodup) :
    List.insertionSort tsLe l₁ = List.insertionSort tsLe l₂ := by
  have hp1 := List.perm_insertionSort tsLe l₁
  have hp2 := List.perm_insertionSort tsLe l₂
  have hs1 := List.sorted_insertionSort tsLe l₁
  have hs2 := List.sorted_insertionSort tsLe l₂
  have hnd1 : ((List.insertionSort tsLe l₁).map Drink.timestamp).Nodup :=
    ((hp1.map Drink.timestamp).symm).nodup hnd
  have hnd2 : ((List.insertionSort tsLe l₂).map Drink.timestamp).Nodup :=
    ((hp2.map Drink.timestamp).symm).nodup ((hperm.map Drink.timestamp).nodup hnd)
  have hlt1 : List.Sorted tsLt (List.insertionSort tsLe l₁) :=
    (List.Pairwise.and hs1 (List.pairwise_map.mp hnd1)).imp
      fun h => lt_of_le_of_ne h.1 h.2
  have hlt2 : List.Sorted tsLt (List.insertionSort tsLe l₂) :=
    (List.Pairwise.and hs2 (List.pairwise_map.mp hnd2)).imp
      fun h => lt_of_le_of_ne h.1 h.2
  exact List.eq_of_perm_of_sorted (hp1.trans (hperm.trans hp2.symm)) hlt1 hlt2

/-- C2 (amended) — for drink lists with pairwise-distinct timestamps,
`calculateChartData` is invariant under permutations of its input. -/
theorem c2_chart_perm_invariant_of_distinct (l₁ l₂ : List Drink) (g : Gender)
    (now w : ℚ) (hperm : l₁.Perm l₂) (hnd : (l₁.map Drink.timestamp).Nodup) :
    calculateChartData l₁ g now w = calculateChartData l₂ g now w := by
  simp only [calculateChartData, insertionSort_eq_of_perm hperm hnd]

/-- C2 counterexample — two different drinks sharing one timestamp: the stable
sort keeps the input order of the tie, and the two orders give different sample
sequences. -/
theorem c2_counterexample :
    ([⟨0, 100, 5⟩, ⟨0, 200, 5⟩] : List Drink).Perm [⟨0, 200, 5⟩, ⟨0, 100, 5⟩] ∧
    calculateChartData [⟨0, 100, 5⟩, ⟨0, 200, 5⟩] .male 3600000 75 ≠
      calculateChartData [⟨0, 200, 5⟩, ⟨0, 100, 5⟩] .male 3600000 75 := by
  constructor
  · exact List.Perm.swap _ _ _
  · norm_num [calculateChartData, chartLoop, List.find?, List.insertionSort,
      List.orderedInsert, tsLe, GENDER_CONSTANTS, METABOLISM_RATE, widmarkPeak,
      alcoholGramsOf, hoursBetween]

/-- C2 witness: two distinct-timestamp drinks in either order, via the theorem. -/
theorem c2_witness :
    calculateChartData [⟨0, 500, 5⟩, ⟨3600000, 330, 4.5⟩] .male 7200000 75 =
      calculateChartData [⟨3600000, 330, 4.5⟩, ⟨0, 500, 5⟩] .male 7200000 75 :=
  c2_chart_perm_invariant_of_distinct _ _ .male 7200000 75
    (List.Perm.swap _ _ _) (by norm_num)

/-! ### C3 — evaluator vs. synthesizer at `now` -/

/-- Strict variant of `now_le_zeroTime`: while the decayed level is still
positive at `now`, the projected zero-crossing is strictly after `now`. -/
theorem now_lt_zeroTime {a dts now : ℚ}
    (h1 : 0 < a - METABOLISM_RATE * hoursBetween dts now) :
    now < dts + a / METABOLISM_RATE * (60 * 60 * 1000) := by
  norm_num [METABOLISM_RATE, hoursBetween] at h1 ⊢
  linarith

/-- C3 (amended) — for a single drink strictly before `now`, the chart has
exactly one sample at time `now`, and its level equals `calculateBac` at `now`. -/
theorem c3_chart_agrees_evaluator_single (d : Drink) (g : Gender) (now w : ℚ)
    (hlt : d.timestamp < now) :
    (calculateChartData [d] g now w).countP
      (fun s => decide (s.timestamp = now)) = 1 ∧
    ((calculateChartData [d] g now w).find?
      (fun s => decide (s.timestamp = now))).map DataPoint.bac =
      some (calculateBac [d] g now w) := by
  have hbac : calculateBac [d] g now w =
      max 0 (widmarkPeak g w d - METABOLISM_RATE * hoursBetween d.timestamp now) := by
    show drinkContribution g w now d + 0 = _
    rw [add_zero, drinkContribution, if_neg (lt_asymm hlt)]
  simp only [calculateChartData, List.insertionSort, List.orderedInsert]
  simp only [chartLoop, List.cons_append, List.nil_append, List.append_nil]
  split
  · rename_i nd heq
    rw [List.find?_cons_of_neg _ (by simp), List.find?_nil] at heq
    exact Option.noConfusion heq
  · rw [if_pos hlt]
    split
    · rename_i hdec
      have h1 : 0 < 0 + widmarkPeak g w d -
          METABOLISM_RATE * hoursBetween d.timestamp now :=
        (lt_max_iff.mp hdec).resolve_left (lt_irrefl 0)
      rw [zero_add] at h1
      have hz := now_lt_zeroTime h1
      constructor
      · simp [List.countP_cons, hlt.ne, hz.ne']
      · rw [List.find?_cons_of_neg _ (by simp [hlt.ne]),
          List.find?_cons_of_neg _ (by simp [hlt.ne]),
          List.find?_cons_of_pos _ (by simp)]
        simp [hbac]
    · constructor
      · simp [List.countP_cons, hlt.ne]
      · rw [List.find?_cons_of_neg _ (by simp [hlt.ne]),
          List.find?_cons_of_neg _ (by simp [hlt.ne]),
          List.find?_cons_of_pos _ (by simp)]
        simp [hbac]

/-- C3 counterexample — with two drinks one hour apart, two hours in at `now`
the chart's sample at `now` carries level 161/3400 ≈ 0.0474 while `calculateBac`
returns 11/340 ≈ 0.0324: the loop decays the running total at a single
elimination rate while the evaluator decays every contribution separately. -/
theorem c3_counterexample :
    ((calculateChartData [⟨0, 500, 5⟩, ⟨3600000, 500, 5⟩] .male 7200000 75).find?
        (fun s => decide (s.timestamp = 7200000))).map DataPoint.bac =
      some (161 / 3400) ∧
    calculateBac [⟨0, 500, 5⟩, ⟨3600000, 500, 5⟩] .male 7200000 75 = 11 / 340 ∧
    (161 / 3400 : ℚ) ≠ 11 / 340 := by
  refine ⟨?_, ?_, by norm_num⟩
  · norm_num [calculateChartData, chartLoop, List.find?, List.insertionSort,
      List.orderedInsert, tsLe, GENDER_CONSTANTS, METABOLISM_RATE, widmarkPeak,
      alcoholGramsOf, hoursBetween]
  · norm_num [calculateBac, drinkContribution, widmarkPeak, alcoholGramsOf,
      hoursBetween, METABOLISM_RATE, GENDER_CONSTANTS]

/-- C3 witness: a single drink one hour before `now`, via the theorem. -/
theorem c3_witness :
    (calculateChartData [⟨0, 500, 5⟩] .male 3600000 75).countP
      (fun s => decide (s.timestamp = 3600000)) = 1 ∧
    ((calculateChartData [⟨0, 500, 5⟩] .male 3600000 75).find?
      (fun s => decide (s.timestamp = 3600000))).map DataPoint.bac =
      some (calculateBac [⟨0, 500, 5⟩] .male 3600000 75) :=
  c3_chart_agrees_evaluator_single ⟨0, 500, 5⟩ .male 3600000 75 (by norm_num)

end BuzzGauge
